import Mathlib

/-!
Shallow embedding of the MichaelWalshOS core (src/geminiService.ts and the unnamed
App component, src/unnamed/part_000), with theorems settling the frozen claims about
the content cache, the streaming generation orchestrator, the interaction history
window, citation deduplication, and the realtime audio pipeline.

Conventions:
* JS `Record<string, string>` objects and `Map<string, string>` are modelled as
  association lists whose keys are kept unique; both insertion forms used by the
  source (`{...prev, [k]: v}` and `Map.set(k, v)`) replace an existing key's value
  in place and append a fresh key at the end, which is `objSet` below.
* Machine floating point samples are modelled as rationals; the JS coercion applied
  when storing into an `Int16Array` (ToInt16: truncate toward zero, then wrap modulo
  2^16 into the signed range) is modelled explicitly.
* The remote generator is a free parameter (`StreamOutcome`): a stream either
  delivers all of its chunks and ends normally, or fails after a prefix of chunks.
-/

namespace MWOS

/-- Interaction records as used by the sources (`types.ts` itself is not among the
source files; the fields are those read by `part_000` and `geminiService.ts`:
`id`, `type`, `elementText`, `elementType`, `appContext`, `value`). -/
structure InteractionData where
  id : String
  type : String
  elementText : String
  elementType : String := ""
  appContext : String := ""
  value : String := ""
deriving DecidableEq, Repr

/-- App definitions as used by `handleAppOpen` (only `id` and `name` are read on the
paths modelled here). -/
structure AppDefinition where
  id : String
  name : String
  icon : String := ""
  description : String := ""
  color : String := ""
deriving DecidableEq, Repr

/-- Modelled from the spec: `constants.ts` is not among the source files; §3 of the
spec fixes the history bound `H` as a small integer with default 10. -/
def MAX_HISTORY_LENGTH : Nat := 10

/-- Lookup in a JS object / Map modelled as an association list (first match;
keys are unique in every list built by `objSet`). -/
def objGet : List (String × String) → String → Option String
  | [], _ => none
  | p :: m, k => if p.1 = k then some p.2 else objGet m k

/-- `{...prev, [k]: v}` / `Map.set k v`: replace the value at an existing key in
place (keeping its position, as JS insertion order does), or append a new key at
the end. -/
def objSet : List (String × String) → String → String → List (String × String)
  | [], k, v => [(k, v)]
  | p :: m, k, v => if p.1 = k then (k, v) :: m else p :: objSet m k v

/-- JS truthiness of an optional string: present and non-empty. -/
def truthy : Option String → Bool
  | some s => s != ""
  | none => false

/-- `currentAppPath.join('__')` (part_000 lines 135, 366, 408). -/
def pathKey (path : List String) : String :=
  String.intercalate "__" path

/-! ## The generation orchestrator (geminiService.ts, streamAppContent) -/

/-- One chunk of the remote stream: its text and the `(uri, title)` pairs of its
grounding metadata (`chunk.candidates[0].groundingMetadata.groundingChunks[*].web`). -/
structure Chunk where
  text : String
  grounding : List (String × String)
deriving DecidableEq, Repr

/-- Outcome of the remote `generateContentStream` call: either every chunk is
delivered and the stream ends normally, or the stream fails after delivering a
prefix of chunks, raising an error with the given message. -/
inductive StreamOutcome
  | success (chunks : List Chunk)
  | failure (chunks : List Chunk) (errMsg : String)
deriving DecidableEq, Repr

/-- geminiService.ts lines 192-196: the block yielded when API_KEY is unset. -/
def configErrorBlock : String :=
  "<div class=\"p-4 text-red-700 bg-red-100 rounded-lg\"><p class=\"font-bold text-lg\">Configuration Error</p><p class=\"mt-2\">The API_KEY is not configured. Please set the API_KEY environment variable.</p></div>"

/-- geminiService.ts lines 200-203: the block yielded on an empty interaction
history. -/
def noInteractionBlock : String :=
  "<div class=\"p-4 text-orange-700 bg-orange-100 rounded-lg\"><p class=\"font-bold text-lg\">No interaction data provided.</p></div>"

/-- Markup surrounding the error message in the terminal error block
(geminiService.ts lines 353-357). -/
def streamErrorBlockPre : String :=
  "<div class=\"p-4 text-red-700 bg-red-100 rounded-lg\"><p class=\"font-bold text-lg\">Error Generating Content</p><p class=\"mt-2\">An error occurred while generating content. Details: "

def streamErrorBlockSuf : String :=
  "</p><p class=\"mt-1\">This may be due to an API key issue, network problem, or misconfiguration. Please check the developer console for more details.</p></div>"

/-- geminiService.ts lines 335-357: the terminal block yielded from the catch
handler when the stream fails with an Error carrying a message. -/
def streamErrorBlock (msg : String) : String :=
  streamErrorBlockPre ++ msg ++ streamErrorBlockSuf

/-- The texts yielded by the chunk loop: `if (chunk.text) yield chunk.text`
(geminiService.ts lines 305-308). -/
def chunkTexts (chunks : List Chunk) : List String :=
  (chunks.filter (fun c => c.text != "")).map (fun c => c.text)

/-- Grounding collection (geminiService.ts lines 303-318): every chunk's web
grounding entries are written into the `allGroundingChunks` map with
`Map.set(uri, title)`. -/
def collectGrounding (chunks : List Chunk) : List (String × String) :=
  chunks.foldl (fun m c => c.grounding.foldl (fun m' p => objSet m' p.1 p.2) m) []

/-- The flattened sequence of `(uri, title)` grounding pairs of a stream, in
arrival order. -/
def flatGrounding (chunks : List Chunk) : List (String × String) :=
  chunks.flatMap (fun c => c.grounding)

/-- The title of the last grounding entry carrying `uri` in a pair sequence, if
any (later entries take precedence). -/
def lastAssign : List (String × String) → String → Option String
  | [], _ => none
  | p :: rest, k =>
      (lastAssign rest k).orElse (fun _ => if p.1 = k then some p.2 else none)

/-- Title sanitisation (geminiService.ts lines 327-329):
`title.replace(/</g, '&lt;').replace(/>/g, '&gt;')`. Since both patterns are
single characters and neither replacement contains `<` or `>`, the chained global
replaces are exactly this character-wise substitution. -/
def escapeHtml (t : String) : String :=
  String.join (t.data.map (fun c =>
    if c = '<' then "&lt;" else if c = '>' then "&gt;" else String.singleton c))

/-- `encodeURI` is modelled as the identity: it percent-encodes characters outside
the unreserved URI set and is injective on the URI strings compared in this file; no
claim depends on the encoding itself. -/
def encodeURIModel (s : String) : String := s

/-- One rendered source entry (geminiService.ts lines 324-331): the sanitised URI
and the rendered title — the escaped title, or the sanitised URI when the title is
empty/falsy. -/
def renderSourceEntry (p : String × String) : String × String :=
  (encodeURIModel p.1, if p.2 == "" then encodeURIModel p.1 else escapeHtml p.2)

/-- The `(href, rendered title)` pairs listed in the final sources block, in map
iteration order. -/
def sourcesEntries (g : List (String × String)) : List (String × String) :=
  g.map renderSourceEntry

/-- The final sources block (geminiService.ts lines 321-333). -/
def sourcesBlockHtml (g : List (String × String)) : String :=
  "<div class=\"llm-container mt-4 border-t pt-2\"><h3 class=\"llm-title text-base\">Sources</h3><ul class=\"list-disc list-inside\">"
    ++ String.join ((sourcesEntries g).map (fun e =>
        "<li class=\"llm-text text-sm ml-2\"><a href=\"" ++ e.1
          ++ "\" target=\"_blank\" rel=\"noopener noreferrer\" class=\"text-blue-600 hover:underline\">"
          ++ e.2 ++ "</a></li>"))
    ++ "</ul></div>"

/-- The sequence of fragments yielded by `streamAppContent` (geminiService.ts lines
184-359), as a function of the configured key, the history, and the remote stream's
outcome. Prompt assembly (lines 206-294) only feeds the generator and is not
observable in the fragment sequence, so it is absorbed into the free
`StreamOutcome`. On normal completion the collected grounding map, if non-empty, is
appended as one final synthetic fragment; on failure the catch handler yields the
terminal error block instead (the sources block is never reached). -/
def streamAppContent (apiKeySet : Bool) (interactionHistory : List InteractionData)
    (outcome : StreamOutcome) : List String :=
  if !apiKeySet then [configErrorBlock]
  else if interactionHistory.length = 0 then [noInteractionBlock]
  else
    match outcome with
    | .success chunks =>
        let g := collectGrounding chunks
        if g.length > 0 then chunkTexts chunks ++ [sourcesBlockHtml g]
        else chunkTexts chunks
    | .failure chunks errMsg => chunkTexts chunks ++ [streamErrorBlock errMsg]

/-! ## The App component's state (part_000) -/

/-- The React state of the App component that the claims are about. -/
structure AppState where
  activeApp : Option String
  llmContent : String
  isLoading : Bool
  error : Option String
  interactionHistory : List InteractionData
  appContentCache : List (String × String)
  currentAppPath : List String
deriving DecidableEq, Repr

def initialState : AppState :=
  { activeApp := none
    llmContent := ""
    isLoading := false
    error := none
    interactionHistory := []
    appContentCache := []
    currentAppPath := [] }

/-- part_000 lines 89-125, `internalHandleLlmRequest`: on empty history it sets a
local error and returns without starting a stream; otherwise it iterates the stream,
appending every delivered fragment to `llmContent` via
`setLlmContent(prev => prev + chunk)`, and finally clears `isLoading`. The catch
branch (lines 115-119) is unreachable here because `streamAppContent` converts every
stream failure into a yielded terminal fragment rather than a thrown exception. -/
def internalHandleLlmRequest (st : AppState) (historyForLlm : List InteractionData)
    (apiKeySet : Bool) (outcome : StreamOutcome) : AppState :=
  if historyForLlm.length = 0 then
    { st with error := some "No interaction data to process." }
  else
    { st with
      isLoading := false
      error := none
      llmContent := st.llmContent
        ++ String.join (streamAppContent apiKeySet historyForLlm outcome) }

/-- part_000 lines 128-144, the cache-write effect: skipped entirely while the
Task Handoff app is active; otherwise, once loading has finished, the path is
non-empty and the current content is truthy, the content is written under the
path key when it differs from the stored entry. -/
def cacheWriteEffect (st : AppState) : AppState :=
  if st.activeApp = some "task_handoff_app" then st
  else if !st.isLoading ∧ st.currentAppPath.length > 0 ∧ st.llmContent ≠ "" then
    if objGet st.appContentCache (pathKey st.currentAppPath) ≠ some st.llmContent then
      { st with appContentCache :=
          objSet st.appContentCache (pathKey st.currentAppPath) st.llmContent }
    else st
  else st

/-- part_000 lines 59-87, `handleCloseAppView` (session state reset; the content
cache is deliberately left intact). -/
def handleCloseAppView (st : AppState) : AppState :=
  { st with
    activeApp := none
    llmContent := ""
    error := none
    interactionHistory := []
    currentAppPath := []
    isLoading := false }

/-- part_000 lines 362-364: the path extension performed by `handleInteraction` —
append the clicked id while an app is active, otherwise start a fresh path. -/
def newPathOf (st : AppState) (r : InteractionData) : List String :=
  match st.activeApp with
  | some _ => st.currentAppPath ++ [r.id]
  | none => [r.id]

/-- part_000 lines 348-381, `handleInteraction`, standard app logic path (the
special-cased ids for image/video/live-session/install are separate early-return
branches that never touch the history or the cache; direct content mutation by
those branches is covered by `Op.setContent` below). The new record is prepended to
the history truncated to `MAX_HISTORY_LENGTH - 1`, the path is extended (or started
when no app is active), content and error are cleared, and then either a truthy
cache entry is served (except for the stateless Task Handoff app) or a generation
is started with the new history. -/
def handleInteraction (st : AppState) (r : InteractionData)
    (apiKeySet : Bool) (outcome : StreamOutcome) : AppState :=
  let newHistory := r :: st.interactionHistory.take (MAX_HISTORY_LENGTH - 1)
  let newPath := newPathOf st r
  let cacheKey := pathKey newPath
  let st1 := { st with
    interactionHistory := newHistory
    currentAppPath := newPath
    llmContent := ""
    error := none }
  if truthy (objGet st.appContentCache cacheKey) ∧ st.activeApp ≠ some "task_handoff_app" then
    { st1 with
      llmContent := (objGet st.appContentCache cacheKey).getD ""
      isLoading := false }
  else
    internalHandleLlmRequest st1 newHistory apiKeySet outcome

/-- part_000 lines 394-421, `handleAppOpen`: history reset to the single synthetic
`app_open` record, path reset to `[app.id]`, and either a truthy cached entry is
served (never for the stateless Task Handoff app) or a generation is started. -/
def handleAppOpen (st : AppState) (app : AppDefinition)
    (apiKeySet : Bool) (outcome : StreamOutcome) : AppState :=
  let initialInteraction : InteractionData :=
    { id := app.id
      type := "app_open"
      elementText := app.name
      elementType := "icon"
      appContext := app.id }
  let newHistory := [initialInteraction]
  let appPath := [app.id]
  let cacheKey := pathKey appPath
  let st1 := { st with
    interactionHistory := newHistory
    currentAppPath := appPath
    activeApp := some app.id
    llmContent := ""
    error := none }
  if app.id ≠ "task_handoff_app" ∧ truthy (objGet st.appContentCache cacheKey) then
    { st1 with
      llmContent := (objGet st.appContentCache cacheKey).getD ""
      isLoading := false }
  else
    internalHandleLlmRequest st1 newHistory apiKeySet outcome

/-- The operations that drive the App state. `setContent` stands for the
special-cased branches of `handleInteraction` (image/video/live-session) that
mutate only `llmContent` and `isLoading` directly. -/
inductive Op
  | appOpen (app : AppDefinition) (apiKeySet : Bool) (outcome : StreamOutcome)
  | interact (r : InteractionData) (apiKeySet : Bool) (outcome : StreamOutcome)
  | close
  | setContent (s : String) (loading : Bool)
deriving Repr

def applyOp (st : AppState) : Op → AppState
  | .appOpen app b o => handleAppOpen st app b o
  | .interact r b o => handleInteraction st r b o
  | .close => handleCloseAppView st
  | .setContent s loading => { st with llmContent := s, isLoading := loading }

/-- One event-loop round: the handler runs, then the cache-write effect fires on
the updated state (while a stream is still loading the effect's guard blocks any
write, so running it once on the settled state is the faithful net effect). -/
def stepOp (st : AppState) (op : Op) : AppState :=
  cacheWriteEffect (applyOp st op)

def runApp (ops : List Op) : AppState :=
  ops.foldl stepOp initialState

/-! ## The in-flight stream vs. interaction race (part_000 lines 103-122 and 368) -/

/-- The events that touch the shared `llmContent` value while a generation stream
may still be in flight: a fragment delivered by the superseded (old) stream, the
clearing `setLlmContent('')` performed by `handleInteraction` for a new interaction
(part_000 line 368), and a fragment delivered by the new stream. -/
inductive GenEvent
  | oldChunk (s : String)
  | newInteractionClear
  | newChunk (s : String)
deriving DecidableEq, Repr

/-- How each event updates the shared content. A delivered fragment — from either
stream — runs `setLlmContent(prev => prev + chunk)` (part_000 line 113); the loop
body carries no check of whether its request has been superseded. -/
def stepContent (c : String) : GenEvent → String
  | .oldChunk s => c ++ s
  | .newInteractionClear => ""
  | .newChunk s => c ++ s

def runEvents (c : String) (es : List GenEvent) : String :=
  es.foldl stepContent c

/-- The text an event contributes to the shared content. -/
def evText : GenEvent → String
  | .oldChunk s => s
  | .newInteractionClear => ""
  | .newChunk s => s

/-! ## Audio pipeline (geminiService.ts lines 134-182, part_000 lines 240-254) -/

/-- Truncation toward zero of a rational, as JS ToIntegerOrInfinity does before a
typed-array store. -/
def jsTrunc (q : ℚ) : ℤ :=
  if 0 ≤ q then ⌊q⌋ else ⌈q⌉

/-- JS ToInt16, applied on assignment into an `Int16Array`: reduce modulo 2^16 into
the signed 16-bit range (wrap-around, no saturation). -/
def toInt16 (n : ℤ) : ℤ :=
  ((n + 32768) % 65536) - 32768

/-- geminiService.ts line 138, `int16[i] = data[i] * 32768`: the product is stored
through ToInt16 (truncate toward zero, then wrap modulo 2^16). -/
def encodeSample (s : ℚ) : ℤ :=
  toInt16 (jsTrunc (s * 32768))

/-- The spec's stated conversion contract, for comparison with `encodeSample`:
`round(s * 32768)` clipped to the signed 16-bit range. -/
def encodeSampleSpec (s : ℚ) : ℤ :=
  max (-32768) (min 32767 ⌊s * 32768 + 1/2⌋)

/-- The two little-endian bytes of a signed 16-bit value, as produced by viewing
the `Int16Array` buffer through a `Uint8Array` (geminiService.ts lines 141-146). -/
def int16ToBytes (v : ℤ) : List ℕ :=
  [(v % 65536).toNat % 256, (v % 65536).toNat / 256]

/-- Reinterpreting two little-endian bytes as a signed 16-bit value, as done by the
`Int16Array` view in `decodeAudioData` (geminiService.ts line 171). -/
def bytesToInt16 (lo hi : ℕ) : ℤ :=
  toInt16 ((lo : ℤ) + 256 * (hi : ℤ))

/-- `btoa` on a binary string, modelled on the byte lists it encodes: each group of
3 bytes becomes 4 six-bit values; the final group of 1 or 2 bytes is padded, with
`64` standing for the `=` pad character. -/
def btoaChunks : List ℕ → List ℕ
  | a :: b :: c :: rest =>
      a / 4 :: ((a % 4) * 16 + b / 16) :: ((b % 16) * 4 + c / 64) :: (c % 64)
        :: btoaChunks rest
  | [a, b] => [a / 4, (a % 4) * 16 + b / 16, (b % 16) * 4, 64]
  | [a] => [a / 4, (a % 4) * 16, 64, 64]
  | [] => []

/-- `atob` (geminiService.ts lines 155-163), inverse of `btoaChunks` on valid
base64: each group of 4 six-bit values yields 3 bytes, fewer at a padded tail. -/
def atobChunks : List ℕ → List ℕ
  | w :: x :: y :: z :: rest =>
      if z = 64 then
        if y = 64 then [w * 4 + x / 16]
        else [w * 4 + x / 16, (x % 16) * 16 + y / 4]
      else
        (w * 4 + x / 16) :: ((x % 16) * 16 + y / 4) :: ((y % 4) * 64 + z)
          :: atobChunks rest
  | _ => []

/-- `createPcmBlob` (geminiService.ts lines 134-153) up to its data payload: each
sample is stored into an `Int16Array` (ToInt16 wrap), the buffer is read as
little-endian bytes, and the bytes are base64-encoded. -/
def createPcmBlobData (samples : List ℚ) : List ℕ :=
  btoaChunks ((samples.map encodeSample).flatMap int16ToBytes)

/-- `decodeAudioData` at one channel (geminiService.ts lines 165-182): the byte
buffer is viewed as little-endian signed 16-bit values and each is divided by
32768. -/
def bytesToSamples : List ℕ → List ℚ
  | lo :: hi :: rest => ((bytesToInt16 lo hi : ℚ) / 32768) :: bytesToSamples rest
  | _ => []

/-- The full inbound decoding path: `decodeAudioData(decode(base64), ctx, rate, 1)`
(part_000 lines 243-248). -/
def decodePcm (b64 : List ℕ) : List ℚ :=
  bytesToSamples (atobChunks b64)

/-- One inbound audio message (part_000 lines 240-254): the output device clock
(`outputAudioContext.currentTime`) observed when the message is handled, and the
decoded buffer's duration in seconds. -/
structure AudioEvent where
  clock : ℚ
  duration : ℚ
deriving DecidableEq, Repr

/-- part_000 lines 252-253. `source.start(nextStartTime)` requests playback at the
pre-update cursor; the output device clamps a requested time earlier than the
current clock to the clock (Web Audio `start` semantics), so the effective start is
`max(clock, nextStartTime)` — the same value the cursor update on the next line
computes before adding the buffer's duration. Returns (effective start, new
cursor). -/
def scheduleOne (cursor : ℚ) (e : AudioEvent) : ℚ × ℚ :=
  (max e.clock cursor, max e.clock cursor + e.duration)

/-- Processing a sequence of inbound buffers in receipt order: the list of
(effective start, duration) pairs, and the final cursor. -/
def scheduleAll (cursor : ℚ) : List AudioEvent → List (ℚ × ℚ) × ℚ
  | [] => ([], cursor)
  | e :: es =>
      let sc := scheduleOne cursor e
      let rest := scheduleAll sc.2 es
      ((sc.1, e.duration) :: rest.1, rest.2)

/-! ## Helper lemmas about the association-list object model -/

theorem objGet_objSet (m : List (String × String)) (a v k : String) :
    objGet (objSet m a v) k = if k = a then some v else objGet m k := by
  induction m with
  | nil =>
    by_cases hk : k = a
    · simp [objSet, objGet, hk]
    · simp [objSet, objGet, hk, Ne.symm hk]
  | cons p m ih =>
    by_cases hp : p.1 = a
    · by_cases hk : k = a
      · simp [objSet, objGet, hp, hk]
      · have hpk : ¬ p.1 = k := fun hcon => hk ((hcon ▸ hp : k = a))
        simp [objSet, objGet, hp, hk, Ne.symm hk, hpk]
    · by_cases hk : k = a
      · subst hk
        simp [objSet, objGet, hp, ih]
      · simp [objSet, objGet, hp, hk, ih]

theorem mem_objSet (m : List (String × String)) (a v : String) (p : String × String)
    (h : p ∈ objSet m a v) : p ∈ m ∨ p = (a, v) := by
  induction m with
  | nil => simp [objSet] at h; simp [h]
  | cons q m ih =>
    by_cases hq : q.1 = a
    · simp only [objSet, hq, if_true, List.mem_cons] at h
      rcases h with h | h
      · right; exact h
      · left; simp [h]
    · simp only [objSet, hq, if_false, List.mem_cons] at h
      rcases h with h | h
      · left; simp [h]
      · rcases ih h with h' | h'
        · left; simp [h']
        · right; exact h'

/-- The keys of `objSet m k v`: unchanged when `k` is already a key, otherwise
`k` is appended. -/
theorem keys_objSet (m : List (String × String)) (k v : String) :
    (objSet m k v).map Prod.fst
      = if k ∈ m.map Prod.fst then m.map Prod.fst else m.map Prod.fst ++ [k] := by
  induction m with
  | nil => simp [objSet]
  | cons p m ih =>
    by_cases hp : p.1 = k
    · simp [objSet, hp]
    · simp only [objSet, hp, if_false, List.map_cons, ih]
      by_cases hk : k ∈ m.map Prod.fst
      · simp [hk, Ne.symm hp]
      · simp [hk, Ne.symm hp]

theorem nodup_keys_objSet (m : List (String × String)) (k v : String)
    (h : (m.map Prod.fst).Nodup) : ((objSet m k v).map Prod.fst).Nodup := by
  rw [keys_objSet]
  by_cases hk : k ∈ m.map Prod.fst
  · simpa [hk] using h
  · rw [if_neg hk]
    refine List.Nodup.append h (List.nodup_singleton k) ?_
    intro a ha hb
    simp only [List.mem_singleton] at hb
    exact hk (hb ▸ ha)

/-! ## Helper lemmas about string joining -/

theorem foldl_append_str (l : List String) (a : String) :
    l.foldl (· ++ ·) a = a ++ l.foldl (· ++ ·) "" := by
  induction l generalizing a with
  | nil => simp
  | cons x l ih =>
    simp only [List.foldl_cons]
    rw [ih (a ++ x), ih ("" ++ x)]
    simp [String.append_assoc]

theorem join_cons (a : String) (l : List String) :
    String.join (a :: l) = a ++ String.join l := by
  simp only [String.join, List.foldl_cons]
  rw [foldl_append_str]
  simp

theorem join_append_str (l₁ l₂ : List String) :
    String.join (l₁ ++ l₂) = String.join l₁ ++ String.join l₂ := by
  induction l₁ with
  | nil => simp [String.join]
  | cons x l ih => simp [join_cons, ih, String.append_assoc]

theorem length_join_str (l : List String) :
    (String.join l).length = (l.map String.length).sum := by
  induction l with
  | nil => simp [String.join]
  | cons x l ih => simp [join_cons, ih]

set_option maxRecDepth 4000 in
theorem streamErrorBlock_ne_empty (msg : String) : streamErrorBlock msg ≠ "" := by
  intro h
  have hpre : 0 < streamErrorBlockPre.length := by decide
  have hlen : (streamErrorBlock msg).length = 0 := by simp [h]
  simp only [streamErrorBlock, String.length_append] at hlen
  omega

/-! ## Field-preservation lemmas for the App handlers -/

theorem internal_fields (st : AppState) (hist : List InteractionData)
    (b : Bool) (o : StreamOutcome) :
    (internalHandleLlmRequest st hist b o).interactionHistory = st.interactionHistory ∧
    (internalHandleLlmRequest st hist b o).appContentCache = st.appContentCache ∧
    (internalHandleLlmRequest st hist b o).currentAppPath = st.currentAppPath ∧
    (internalHandleLlmRequest st hist b o).activeApp = st.activeApp := by
  unfold internalHandleLlmRequest
  by_cases h : hist.length = 0 <;> simp [h]

theorem handleInteraction_fields (st : AppState) (r : InteractionData)
    (b : Bool) (o : StreamOutcome) :
    (handleInteraction st r b o).interactionHistory
        = r :: st.interactionHistory.take (MAX_HISTORY_LENGTH - 1) ∧
    (handleInteraction st r b o).appContentCache = st.appContentCache ∧
    (handleInteraction st r b o).currentAppPath = newPathOf st r ∧
    (handleInteraction st r b o).activeApp = st.activeApp := by
  unfold handleInteraction
  by_cases h : truthy (objGet st.appContentCache (pathKey (newPathOf st r))) = true
      ∧ ¬st.activeApp = some "task_handoff_app"
  · simp [h]
  · simp only [h, if_false]
    simpa using internal_fields _ _ b o

theorem handleAppOpen_fields (st : AppState) (app : AppDefinition)
    (b : Bool) (o : StreamOutcome) :
    (handleAppOpen st app b o).interactionHistory
        = [{ id := app.id, type := "app_open", elementText := app.name,
             elementType := "icon", appContext := app.id }] ∧
    (handleAppOpen st app b o).appContentCache = st.appContentCache ∧
    (handleAppOpen st app b o).currentAppPath = [app.id] ∧
    (handleAppOpen st app b o).activeApp = some app.id := by
  unfold handleAppOpen
  by_cases h : ¬app.id = "task_handoff_app"
      ∧ truthy (objGet st.appContentCache (pathKey [app.id])) = true
  · simp [h]
  · simp only [h, if_false]
    simpa using internal_fields _ _ b o

/-- The cache-write effect either leaves the state unchanged or only extends the
cache with the current content under the current path key. -/
theorem cacheWriteEffect_cases (st : AppState) :
    cacheWriteEffect st = st ∨
    (st.llmContent ≠ "" ∧ cacheWriteEffect st
      = { st with appContentCache :=
            objSet st.appContentCache (pathKey st.currentAppPath) st.llmContent }) := by
  unfold cacheWriteEffect
  split
  · exact Or.inl rfl
  · split
    · next hcond =>
      split
      · exact Or.inr ⟨hcond.2.2, rfl⟩
      · exact Or.inl rfl
    · exact Or.inl rfl

theorem cacheWriteEffect_fields (st : AppState) :
    (cacheWriteEffect st).interactionHistory = st.interactionHistory ∧
    (cacheWriteEffect st).currentAppPath = st.currentAppPath ∧
    (cacheWriteEffect st).activeApp = st.activeApp ∧
    (cacheWriteEffect st).llmContent = st.llmContent ∧
    (cacheWriteEffect st).isLoading = st.isLoading := by
  rcases cacheWriteEffect_cases st with h | ⟨_, h⟩ <;> simp [h]

/-! ## Claim C7 -/

/-- C7: for the designated stateless app identifier `task_handoff_app`, every
cache consultation reports a miss — `handleAppOpen` and `handleInteraction`
unconditionally take the regeneration branch, whatever the cache holds under
whatever path key — and the cache-write effect is a no-op while that app is
active, so visiting it always triggers a fresh generation and never stores or
serves cached content. -/
theorem c7_stateless_app_never_uses_cache :
    (∀ (st : AppState) (nm ic ds cl : String) (b : Bool) (o : StreamOutcome),
      handleAppOpen st
          { id := "task_handoff_app", name := nm, icon := ic, description := ds, color := cl } b o
        = internalHandleLlmRequest
            { st with
              interactionHistory := [{ id := "task_handoff_app", type := "app_open", elementText := nm, elementType := "icon", appContext := "task_handoff_app" }]
              currentAppPath := ["task_handoff_app"]
              activeApp := some "task_handoff_app"
              llmContent := ""
              error := none }
            [{ id := "task_handoff_app", type := "app_open", elementText := nm, elementType := "icon", appContext := "task_handoff_app" }] b o) ∧
    (∀ (st : AppState) (r : InteractionData) (b : Bool) (o : StreamOutcome),
      handleInteraction { st with activeApp := some "task_handoff_app" } r b o
        = internalHandleLlmRequest
            { st with
              activeApp := some "task_handoff_app"
              interactionHistory := r :: st.interactionHistory.take (MAX_HISTORY_LENGTH - 1)
              currentAppPath := st.currentAppPath ++ [r.id]
              llmContent := ""
              error := none }
            (r :: st.interactionHistory.take (MAX_HISTORY_LENGTH - 1)) b o) ∧
    (∀ st : AppState,
      cacheWriteEffect { st with activeApp := some "task_handoff_app" }
        = { st with activeApp := some "task_handoff_app" }) := by
  refine ⟨?_, ?_, ?_⟩
  · intro st nm ic ds cl b o
    simp [handleAppOpen]
  · intro st r b o
    simp [handleInteraction, newPathOf]
  · intro st
    simp [cacheWriteEffect]

/-! ## Claim C6 -/

/-- C6 counterexample: started with an empty interaction history (API key
configured), the orchestrator does not deliver zero fragments — it yields exactly
one fragment, the "No interaction data provided." block, even though the remote
generator would have produced content. -/
theorem c6_counterexample :
    streamAppContent true []
        (.success [{ text := "<h1>Calendar</h1>", grounding := [] }])
      = [noInteractionBlock] ∧
    (streamAppContent true []
        (.success [{ text := "<h1>Calendar</h1>", grounding := [] }])).length = 1 := by
  constructor
  · rfl
  · rfl

/-- C6 (amended): with an empty interaction history the orchestrator fails
immediately and independently of the generator, yielding exactly one fragment —
the empty-history error block — rather than zero; and the app-level caller
`internalHandleLlmRequest` refuses to start a generation at all on an empty
history, surfacing a local error message and leaving every other state field
unchanged. -/
theorem c6_empty_history_one_error_fragment (o : StreamOutcome) (st : AppState) (b : Bool) :
    streamAppContent true [] o = [noInteractionBlock] ∧
    internalHandleLlmRequest st [] b o
      = { st with error := some "No interaction data to process." } := by
  constructor
  · rfl
  · rfl

/-! ## Claim C2 -/

/-- C2 counterexample: an old-stream fragment delivered after the supersession
point still mutates the shared content. Starting from the superseded state
(content just cleared), delivering the old stream's fragment "B" changes the
shared value; in a full interleaved trace the observable content "BC" mixes the
old generation's fragment "B" with the new generation's fragment "C". -/
theorem c2_counterexample :
    runEvents "" [GenEvent.newInteractionClear, GenEvent.oldChunk "B"]
        ≠ runEvents "" [GenEvent.newInteractionClear] ∧
    runEvents "" [GenEvent.oldChunk "A", GenEvent.newInteractionClear,
        GenEvent.oldChunk "B", GenEvent.newChunk "C"] = "BC" := by
  constructor
  · decide
  · rfl

/-- C2 (amended): the loop body `setLlmContent(prev => prev + chunk)` carries no
supersession check, so after a new interaction clears the shared content, every
remaining fragment of the superseded stream is still appended: the observable
content equals the in-order concatenation of all fragments delivered after the
clear, old-stream and new-stream alike — the content can interleave two
generations. -/
theorem c2_superseded_stream_keeps_appending (c : String) (pre post : List GenEvent)
    (h : ∀ e ∈ post, e ≠ GenEvent.newInteractionClear) :
    runEvents c (pre ++ GenEvent.newInteractionClear :: post)
      = String.join (post.map evText) := by
  have key : ∀ (es : List GenEvent) (c0 : String),
      (∀ e ∈ es, e ≠ GenEvent.newInteractionClear) →
      es.foldl stepContent c0 = c0 ++ String.join (es.map evText) := by
    intro es
    induction es with
    | nil =>
      intro c0 _
      simp [String.join]
    | cons e es ih =>
      intro c0 he
      have hne := he e (List.mem_cons_self e es)
      have hrest : ∀ x ∈ es, x ≠ GenEvent.newInteractionClear :=
        fun x hx => he x (List.mem_cons_of_mem e hx)
      cases e with
      | oldChunk s =>
        simp only [List.foldl_cons, stepContent, List.map_cons]
        rw [ih (c0 ++ s) hrest, join_cons]
        simp [evText, String.append_assoc]
      | newInteractionClear => exact absurd rfl hne
      | newChunk s =>
        simp only [List.foldl_cons, stepContent, List.map_cons]
        rw [ih (c0 ++ s) hrest, join_cons]
        simp [evText, String.append_assoc]
  show (pre ++ GenEvent.newInteractionClear :: post).foldl stepContent c = _
  rw [List.foldl_append, List.foldl_cons]
  have hclear : stepContent (pre.foldl stepContent c) GenEvent.newInteractionClear = "" := rfl
  rw [hclear, key post "" h]
  simp

/-- Witness for C2 (amended) at a concrete interleaving: old fragment "A", then a
superseding interaction, then old fragment "B" and new fragment "C". -/
theorem c2_superseded_stream_keeps_appending_witness :
    runEvents "X" ([GenEvent.oldChunk "A"] ++ GenEvent.newInteractionClear
        :: [GenEvent.oldChunk "B", GenEvent.newChunk "C"])
      = String.join ([GenEvent.oldChunk "B", GenEvent.newChunk "C"].map evText) :=
  c2_superseded_stream_keeps_appending "X" [GenEvent.oldChunk "A"]
    [GenEvent.oldChunk "B", GenEvent.newChunk "C"] (by decide)

/-! ## Claim C9 -/

/-- C9: over every sequence of operations (app opens, in-app clicks, closes, and
direct content mutations), the interaction history never exceeds
`MAX_HISTORY_LENGTH` entries, and every insertion is most-recent-first: the
handler prepends the new record to the previous history truncated to
`MAX_HISTORY_LENGTH - 1` entries, dropping the oldest beyond the bound. -/
theorem c9_history_window_bounded (ops : List Op) :
    (runApp ops).interactionHistory.length ≤ MAX_HISTORY_LENGTH ∧
    (∀ (st : AppState) (r : InteractionData) (b : Bool) (o : StreamOutcome),
      (handleInteraction st r b o).interactionHistory
        = r :: st.interactionHistory.take (MAX_HISTORY_LENGTH - 1)) := by
  constructor
  · have key : ∀ (l : List Op) (st : AppState),
        st.interactionHistory.length ≤ MAX_HISTORY_LENGTH →
        (l.foldl stepOp st).interactionHistory.length ≤ MAX_HISTORY_LENGTH := by
      intro l
      induction l with
      | nil => intro st h; exact h
      | cons op l ih =>
        intro st h
        refine ih _ ?_
        have heff := (cacheWriteEffect_fields (applyOp st op)).1
        rw [stepOp, heff]
        cases op with
        | appOpen app b o =>
          rw [show applyOp st (Op.appOpen app b o) = handleAppOpen st app b o from rfl,
            (handleAppOpen_fields st app b o).1]
          simp [MAX_HISTORY_LENGTH]
        | interact r b o =>
          rw [show applyOp st (Op.interact r b o) = handleInteraction st r b o from rfl,
            (handleInteraction_fields st r b o).1]
          simp only [List.length_cons, List.length_take, MAX_HISTORY_LENGTH]
          omega
        | close => simp [applyOp, handleCloseAppView]
        | setContent s ld => simpa [applyOp] using h
    exact key ops initialState (by simp [initialState])
  · intro st r b o
    exact (handleInteraction_fields st r b o).1

/-! ## Claim C10 -/

/-- C10: every value stored in the content cache is a non-empty string. The
cache-write effect is the only writer and its guard requires loading to have
finished and the current content to be truthy, so no operation sequence —
including interactions that clear the content and generations that yield no
fragments — ever creates a cache entry holding the empty string or blanks an
existing entry. -/
theorem c10_cache_values_nonempty (ops : List Op) (p : String × String)
    (hp : p ∈ (runApp ops).appContentCache) : p.2 ≠ "" := by
  have applyOp_cache : ∀ (st : AppState) (op : Op),
      (applyOp st op).appContentCache = st.appContentCache := by
    intro st op
    cases op with
    | appOpen app b o => exact (handleAppOpen_fields st app b o).2.1
    | interact r b o => exact (handleInteraction_fields st r b o).2.1
    | close => rfl
    | setContent s ld => rfl
  have step : ∀ (st : AppState),
      (∀ q ∈ st.appContentCache, q.2 ≠ "") →
      ∀ (op : Op), ∀ q ∈ (stepOp st op).appContentCache, q.2 ≠ "" := by
    intro st hst op q hq
    rw [stepOp] at hq
    rcases cacheWriteEffect_cases (applyOp st op) with h | ⟨hne, h⟩
    · rw [h, applyOp_cache] at hq
      exact hst q hq
    · rw [h] at hq
      simp only [applyOp_cache] at hq
      rcases mem_objSet _ _ _ _ hq with h' | h'
      · exact hst q h'
      · rw [h']
        exact hne
  have key : ∀ (l : List Op) (st : AppState),
      (∀ q ∈ st.appContentCache, q.2 ≠ "") →
      ∀ q ∈ (l.foldl stepOp st).appContentCache, q.2 ≠ "" := by
    intro l
    induction l with
    | nil => intro st h; exact h
    | cons op l ih => intro st h; exact ih _ (step st h op)
  exact key ops initialState (by simp [initialState]) p hp

/-- Witness for C10 at a concrete run: opening `calendar_app` against an empty
cache stores the generated markup, a non-empty string. -/
theorem c10_cache_values_nonempty_witness :
    ("calendar_app", "<h1>Calendar</h1>")
        ∈ (runApp [Op.appOpen { id := "calendar_app", name := "Calendar" } true
            (.success [{ text := "<h1>Calendar</h1>", grounding := [] }])]).appContentCache ∧
    ("calendar_app", ("<h1>Calendar</h1>" : String)).2 ≠ "" := by
  refine ⟨by decide, ?_⟩
  exact c10_cache_values_nonempty
    [Op.appOpen { id := "calendar_app", name := "Calendar" } true
      (.success [{ text := "<h1>Calendar</h1>", grounding := [] }])]
    ("calendar_app", "<h1>Calendar</h1>") (by decide)

/-! ## Claim C5 -/

/-- Inductive content of the playback-scheduling invariant: down an arbitrary
event sequence, consecutive scheduled buffers never overlap, every effective
start time is at least the initial cursor, and the cursor never decreases. -/
theorem scheduleAll_props : ∀ (es : List AudioEvent) (cursor : ℚ),
    (∀ e ∈ es, 0 ≤ e.duration) →
    List.Chain' (fun a b : ℚ × ℚ => a.1 + a.2 ≤ b.1) (scheduleAll cursor es).1 ∧
    (∀ p ∈ (scheduleAll cursor es).1, cursor ≤ p.1) ∧
    cursor ≤ (scheduleAll cursor es).2 := by
  intro es
  induction es with
  | nil =>
    intro cursor _
    simp [scheduleAll]
  | cons e es ih =>
    intro cursor h
    have hd : 0 ≤ e.duration := h e (List.mem_cons_self e es)
    have hrest : ∀ x ∈ es, 0 ≤ x.duration := fun x hx => h x (List.mem_cons_of_mem e hx)
    obtain ⟨ihChain, ihMem, ihCur⟩ := ih (max e.clock cursor + e.duration) hrest
    have hcc' : cursor ≤ max e.clock cursor + e.duration := by
      have := le_max_right e.clock cursor
      linarith
    have hstep : scheduleAll cursor (e :: es)
        = ((max e.clock cursor, e.duration)
              :: (scheduleAll (max e.clock cursor + e.duration) es).1,
           (scheduleAll (max e.clock cursor + e.duration) es).2) := rfl
    rw [hstep]
    refine ⟨?_, ?_, le_trans hcc' ihCur⟩
    · rw [List.chain'_cons']
      refine ⟨?_, ihChain⟩
      intro y hy
      exact ihMem y (List.mem_of_mem_head? hy)
    · intro p hp
      rcases List.mem_cons.mp hp with h' | h'
      · rw [h']; exact le_max_right _ _
      · exact le_trans hcc' (ihMem p h')

/-- C5: processing inbound audio buffers in receipt order, each buffer's
effective playback start equals `max(currentDeviceClock, nextStartTime)` and the
cursor is then advanced to that start plus the buffer's duration (the first
conjunct, the per-step law of `scheduleOne`); consequently, for non-negative
durations, no two scheduled buffers overlap (each start is at least the previous
start plus the previous duration), every start is at or after the initial
cursor, and the cursor is monotonically non-decreasing. -/
theorem c5_playback_scheduling (cursor : ℚ) (es : List AudioEvent)
    (h : ∀ e ∈ es, 0 ≤ e.duration) :
    (∀ (c : ℚ) (e : AudioEvent),
        scheduleOne c e = (max e.clock c, max e.clock c + e.duration)) ∧
    List.Chain' (fun a b : ℚ × ℚ => a.1 + a.2 ≤ b.1) (scheduleAll cursor es).1 ∧
    (∀ p ∈ (scheduleAll cursor es).1, cursor ≤ p.1) ∧
    cursor ≤ (scheduleAll cursor es).2 :=
  ⟨fun _ _ => rfl, scheduleAll_props es cursor h⟩

/-- Witness for C5 at three concrete buffers (durations 2, 1, 1; the middle one
arriving while the device clock lags the cursor). -/
theorem c5_playback_scheduling_witness :
    (∀ (c : ℚ) (e : AudioEvent),
        scheduleOne c e = (max e.clock c, max e.clock c + e.duration)) ∧
    List.Chain' (fun a b : ℚ × ℚ => a.1 + a.2 ≤ b.1)
      (scheduleAll 0 [⟨1, 2⟩, ⟨0, 1⟩, ⟨10, 1⟩]).1 ∧
    (∀ p ∈ (scheduleAll 0 [⟨1, 2⟩, ⟨0, 1⟩, ⟨10, 1⟩]).1, (0 : ℚ) ≤ p.1) ∧
    (0 : ℚ) ≤ (scheduleAll 0 [⟨1, 2⟩, ⟨0, 1⟩, ⟨10, 1⟩]).2 :=
  c5_playback_scheduling 0 [⟨1, 2⟩, ⟨0, 1⟩, ⟨10, 1⟩] (by decide)

/-! ## Helper lemmas for the PCM conversion -/

theorem toInt16_eq_self (n : ℤ) (h1 : -32768 ≤ n) (h2 : n ≤ 32767) : toInt16 n = n := by
  unfold toInt16
  omega

theorem toInt16_range (n : ℤ) : -32768 ≤ toInt16 n ∧ toInt16 n ≤ 32767 := by
  unfold toInt16
  omega

theorem jsTrunc_err (q : ℚ) : |q - (jsTrunc q : ℚ)| < 1 := by
  unfold jsTrunc
  by_cases h : 0 ≤ q
  · rw [if_pos h]
    have h1 : (⌊q⌋ : ℚ) ≤ q := Int.floor_le q
    have h2 : q < ⌊q⌋ + 1 := Int.lt_floor_add_one q
    rw [abs_of_nonneg (by linarith)]
    linarith
  · rw [if_neg h]
    have h1 : q ≤ (⌈q⌉ : ℚ) := Int.le_ceil q
    have h2 : (⌈q⌉ : ℚ) < q + 1 := Int.ceil_lt_add_one q
    rw [abs_of_nonpos (by linarith)]
    linarith

theorem jsTrunc_range (q : ℚ) (h1 : -32768 ≤ q) (h2 : q < 32768) :
    -32768 ≤ jsTrunc q ∧ jsTrunc q ≤ 32767 := by
  unfold jsTrunc
  by_cases h : 0 ≤ q
  · rw [if_pos h]
    constructor
    · have hf : (0 : ℤ) ≤ ⌊q⌋ := Int.floor_nonneg.mpr h
      omega
    · have hf : (⌊q⌋ : ℚ) ≤ q := Int.floor_le q
      have hlt : (⌊q⌋ : ℚ) < 32768 := lt_of_le_of_lt hf h2
      have : ⌊q⌋ < 32768 := by exact_mod_cast hlt
      omega
  · rw [if_neg h]
    constructor
    · have hq : q ≤ (⌈q⌉ : ℚ) := Int.le_ceil q
      have hle : (-32768 : ℚ) ≤ (⌈q⌉ : ℚ) := le_trans h1 hq
      have : (-32768 : ℤ) ≤ ⌈q⌉ := by exact_mod_cast hle
      omega
    · have : ⌈q⌉ ≤ 0 := Int.ceil_le.mpr (by exact_mod_cast le_of_not_le h)
      omega

/-- Inside `[-1, 1)` the ToInt16 wrap is the identity: the encoder is plain
truncation toward zero of `s * 32768`. -/
theorem encodeSample_in_range (s : ℚ) (h1 : -1 ≤ s) (h2 : s < 1) :
    encodeSample s = jsTrunc (s * 32768) := by
  have hq1 : (-32768 : ℚ) ≤ s * 32768 := by linarith
  have hq2 : s * 32768 < 32768 := by linarith
  obtain ⟨ha, hb⟩ := jsTrunc_range _ hq1 hq2
  unfold encodeSample
  exact toInt16_eq_self _ ha hb

/-! ## Claim C3 -/

/-- C3 counterexample: the encoder is not `round(s * 32768)` clipped to
`[-32768, 32767]`. At the in-range sample `s = 1` the stored value wraps to
`-32768` where the claimed round-and-clip contract gives `32767`; at the
out-of-range sample `s = 3/2` the stored value wraps to the opposite sign
(`-16384`) instead of saturating at `32767`. -/
theorem c3_counterexample :
    encodeSample 1 = -32768 ∧ encodeSampleSpec 1 = 32767 ∧
    encodeSample (3 / 2) = -16384 ∧ encodeSampleSpec (3 / 2) = 32767 := by
  refine ⟨?_, ?_, ?_, ?_⟩ <;>
    · simp only [encodeSample, encodeSampleSpec, jsTrunc, toInt16]
      norm_num

/-- C3 (amended): the encoder stores `ToInt16(trunc(s * 32768))` — truncation
toward zero followed by a wrap modulo 2^16 — not round-and-clip. For samples in
`[-1, 1)` no wrap occurs: the stored value is exactly `trunc(s * 32768)`, lies in
the signed 16-bit range, and differs from `s * 32768` by less than one unit; at
`s = 1` and beyond the value wraps around to the opposite sign rather than
saturating (see the counterexample). -/
theorem c3_encoder_truncates_and_wraps (s : ℚ) (h1 : -1 ≤ s) (h2 : s < 1) :
    encodeSample s = jsTrunc (s * 32768) ∧
    -32768 ≤ encodeSample s ∧ encodeSample s ≤ 32767 ∧
    |s * 32768 - (encodeSample s : ℚ)| < 1 := by
  have heq := encodeSample_in_range s h1 h2
  refine ⟨heq, (toInt16_range _).1, (toInt16_range _).2, ?_⟩
  rw [heq]
  exact jsTrunc_err (s * 32768)

/-- Witness for C3 (amended) at the concrete sample `0`. -/
theorem c3_encoder_truncates_and_wraps_witness :
    encodeSample 0 = jsTrunc ((0 : ℚ) * 32768) ∧
    -32768 ≤ encodeSample 0 ∧ encodeSample 0 ≤ 32767 ∧
    |(0 : ℚ) * 32768 - (encodeSample 0 : ℚ)| < 1 :=
  c3_encoder_truncates_and_wraps 0 (by decide) (by decide)

/-! ## Claim C4 -/

theorem collectGrounding_eq_foldl_aux (chunks : List Chunk)
    (m : List (String × String)) :
    chunks.foldl (fun m c => c.grounding.foldl (fun m' p => objSet m' p.1 p.2) m) m
      = (chunks.flatMap (fun c => c.grounding)).foldl
          (fun m' p => objSet m' p.1 p.2) m := by
  induction chunks generalizing m with
  | nil => rfl
  | cons c cs ih =>
    simp only [List.foldl_cons, List.flatMap_cons, List.foldl_append]
    exact ih _

theorem collectGrounding_eq_foldl (chunks : List Chunk) :
    collectGrounding chunks
      = (flatGrounding chunks).foldl (fun m p => objSet m p.1 p.2) [] :=
  collectGrounding_eq_foldl_aux chunks []

theorem some_orElse_thunk {α : Type} (a : α) (f : Unit → Option α) :
    (some a).orElse f = some a := rfl

theorem none_orElse_thunk {α : Type} (f : Unit → Option α) :
    (none : Option α).orElse f = f () := rfl

theorem objGet_foldl_lastAssign (l : List (String × String))
    (m : List (String × String)) (k : String) :
    objGet (l.foldl (fun m' p => objSet m' p.1 p.2) m) k
      = (lastAssign l k).orElse (fun _ => objGet m k) := by
  induction l generalizing m with
  | nil => simp [lastAssign, none_orElse_thunk]
  | cons p l ih =>
    simp only [List.foldl_cons, lastAssign]
    rw [ih (objSet m p.1 p.2), objGet_objSet]
    cases hlast : lastAssign l k with
    | some t => simp [some_orElse_thunk]
    | none =>
      simp only [none_orElse_thunk]
      by_cases hk : k = p.1
      · simp [hk, some_orElse_thunk]
      · have hk' : ¬ p.1 = k := fun h => hk h.symm
        simp [hk, hk', none_orElse_thunk]

theorem nodup_keys_foldl (l : List (String × String)) (m : List (String × String))
    (h : (m.map Prod.fst).Nodup) :
    ((l.foldl (fun m' p => objSet m' p.1 p.2) m).map Prod.fst).Nodup := by
  induction l generalizing m with
  | nil => exact h
  | cons p l ih =>
    simp only [List.foldl_cons]
    exact ih _ (nodup_keys_objSet m p.1 p.2 h)

/-- C4 counterexample: two fragments citing the same URI with different titles
yield exactly one listed source, but its rendered title is the *last*-seen title
("Second Title"), not the first-seen one the claim requires. -/
theorem c4_counterexample :
    sourcesEntries (collectGrounding
        [{ text := "x", grounding := [("https://a.example", "First Title")] },
         { text := "y", grounding := [("https://a.example", "Second Title")] }])
      = [("https://a.example", "Second Title")] ∧
    ("Second Title" : String) ≠ "First Title" := by
  constructor
  · rfl
  · decide

/-- C4 (amended): the collected grounding map holds exactly one entry per URI
(its key list has no duplicates), and the title recorded for a URI — which is then
HTML-escaped and rendered — is the *last*-seen title for that URI in the stream,
because `Map.set(uri, title)` overwrites the stored title on repeats. -/
theorem c4_citation_dedup_last_title (chunks : List Chunk) (uri : String) :
    ((collectGrounding chunks).map Prod.fst).Nodup ∧
    objGet (collectGrounding chunks) uri = lastAssign (flatGrounding chunks) uri := by
  rw [collectGrounding_eq_foldl]
  constructor
  · exact nodup_keys_foldl _ [] (by simp)
  · rw [objGet_foldl_lastAssign]
    cases hlast : lastAssign (flatGrounding chunks) uri <;> simp [objGet]

/-! ## Claim C1 -/

theorem eq_empty_of_length_zero (s : String) (h : s.length = 0) : s = "" := by
  cases s with
  | mk data =>
    cases data with
    | nil => rfl
    | cons c cs => simp [String.length] at h

theorem append_ne_empty_of_right (a b : String) (h : b ≠ "") : a ++ b ≠ "" := by
  intro hab
  apply h
  have hlen := congrArg String.length hab
  simp only [String.length_append, String.length_empty] at hlen
  exact eq_empty_of_length_zero b (by omega)

set_option maxRecDepth 8000 in
/-- C1 counterexample: a generation that fails mid-stream (one partial fragment,
then a transport error) does write the content cache for the interaction's path
key. Starting from an open `calendar_app` with an empty cache, the failed
generation leaves the cache entry `calendar_app__next_month_btn` holding the
partial fragment plus the terminal error block, where before the generation there
was no entry — the captured failure would be replayed on a cache hit. -/
theorem c1_counterexample :
    objGet (cacheWriteEffect (handleInteraction
        { activeApp := some "calendar_app"
          llmContent := "<p>old screen</p>"
          isLoading := false
          error := none
          interactionHistory := [{ id := "calendar_app", type := "app_open", elementText := "Calendar", elementType := "icon", appContext := "calendar_app" }]
          appContentCache := []
          currentAppPath := ["calendar_app"] }
        { id := "next_month_btn", type := "button_click", elementText := "Next Month", elementType := "button", appContext := "calendar_app" }
        true
        (StreamOutcome.failure [{ text := "<p>partial</p>", grounding := [] }]
          "network failure"))).appContentCache
      (pathKey ["calendar_app", "next_month_btn"])
      = some ("<p>partial</p>" ++ streamErrorBlock "network failure") ∧
    objGet ([] : List (String × String)) (pathKey ["calendar_app", "next_month_btn"])
      = none := by
  constructor
  · decide
  · rfl

/-- C1 (amended): after a generation that ends in a terminal error, the
cache-write effect runs exactly as after a successful one: whenever the active
app is not the stateless `task_handoff_app` and the consultation had missed, the
accumulated content — the delivered fragments followed by the terminal error
block — is stored in the cache under the interaction's path key, so a retried
interaction hitting that key replays the captured failure instead of
regenerating. -/
theorem c1_error_block_is_cached (st : AppState) (r : InteractionData)
    (chunks : List Chunk) (msg : String)
    (happ : st.activeApp ≠ some "task_handoff_app")
    (hmiss : truthy (objGet st.appContentCache (pathKey (newPathOf st r))) = false) :
    objGet (cacheWriteEffect (handleInteraction st r true
        (StreamOutcome.failure chunks msg))).appContentCache (pathKey (newPathOf st r))
      = some (String.join (chunkTexts chunks) ++ streamErrorBlock msg) := by
  have hpath : (newPathOf st r).length > 0 := by
    unfold newPathOf
    cases st.activeApp <;> simp
  have hcne : String.join (chunkTexts chunks) ++ streamErrorBlock msg ≠ "" :=
    append_ne_empty_of_right _ _ (streamErrorBlock_ne_empty msg)
  have hfrag : streamAppContent true
      (r :: st.interactionHistory.take (MAX_HISTORY_LENGTH - 1))
      (StreamOutcome.failure chunks msg)
      = chunkTexts chunks ++ [streamErrorBlock msg] := by
    simp [streamAppContent]
  have hjoin : String.join (chunkTexts chunks ++ [streamErrorBlock msg])
      = String.join (chunkTexts chunks) ++ streamErrorBlock msg := by
    rw [join_append_str, join_cons]
    simp [String.join]
  have hstep : handleInteraction st r true (StreamOutcome.failure chunks msg)
      = { st with
          interactionHistory := r :: st.interactionHistory.take (MAX_HISTORY_LENGTH - 1)
          currentAppPath := newPathOf st r
          isLoading := false
          error := none
          llmContent := String.join (chunkTexts chunks) ++ streamErrorBlock msg } := by
    simp only [handleInteraction, hmiss, Bool.false_eq_true, false_and, if_false,
      internalHandleLlmRequest, List.length_cons]
    simp [hfrag, hjoin]
  rw [hstep]
  by_cases hin : objGet st.appContentCache (pathKey (newPathOf st r))
      = some (String.join (chunkTexts chunks) ++ streamErrorBlock msg)
  · simp [cacheWriteEffect, happ, hpath, hcne, hin]
  · simp [cacheWriteEffect, happ, hpath, hcne, hin, objGet_objSet]

/-- Witness for C1 (amended) at the concrete failing generation used in the
counterexample. -/
theorem c1_error_block_is_cached_witness :
    objGet (cacheWriteEffect (handleInteraction
        { activeApp := some "calendar_app"
          llmContent := "<p>old screen</p>"
          isLoading := false
          error := none
          interactionHistory := [{ id := "calendar_app", type := "app_open", elementText := "Calendar", elementType := "icon", appContext := "calendar_app" }]
          appContentCache := []
          currentAppPath := ["calendar_app"] }
        { id := "next_month_btn", type := "button_click", elementText := "Next Month", elementType := "button", appContext := "calendar_app" }
        true
        (StreamOutcome.failure [{ text := "<p>partial</p>", grounding := [] }]
          "network failure"))).appContentCache
      (pathKey (newPathOf
        { activeApp := some "calendar_app"
          llmContent := "<p>old screen</p>"
          isLoading := false
          error := none
          interactionHistory := [{ id := "calendar_app", type := "app_open", elementText := "Calendar", elementType := "icon", appContext := "calendar_app" }]
          appContentCache := []
          currentAppPath := ["calendar_app"] }
        { id := "next_month_btn", type := "button_click", elementText := "Next Month", elementType := "button", appContext := "calendar_app" }))
      = some (String.join (chunkTexts [{ text := "<p>partial</p>", grounding := [] }])
          ++ streamErrorBlock "network failure") :=
  c1_error_block_is_cached _ _ _ _ (by decide) (by decide)

/-! ## Claim C8 -/

/-- Base64 decoding inverts encoding on byte lists. -/
theorem atobChunks_btoaChunks : ∀ l : List ℕ, (∀ x ∈ l, x < 256) →
    atobChunks (btoaChunks l) = l := by
  intro l
  induction l using btoaChunks.induct with
  | case1 a b c rest ih =>
    intro h
    have ha : a < 256 := h a (by simp)
    have hb : b < 256 := h b (by simp)
    have hc : c < 256 := h c (by simp)
    have hrest : ∀ x ∈ rest, x < 256 := fun x hx => h x (by simp [hx])
    simp only [btoaChunks, atobChunks]
    rw [if_neg (by omega : ¬ c % 64 = 64)]
    rw [ih hrest]
    have e1 : a / 4 * 4 + (a % 4 * 16 + b / 16) / 16 = a := by omega
    have e2 : (a % 4 * 16 + b / 16) % 16 * 16 + (b % 16 * 4 + c / 64) / 4 = b := by omega
    have e3 : (b % 16 * 4 + c / 64) % 4 * 64 + c % 64 = c := by omega
    rw [e1, e2, e3]
  | case2 a b =>
    intro h
    have ha : a < 256 := h a (by simp)
    have hb : b < 256 := h b (by simp)
    simp only [btoaChunks, atobChunks]
    rw [if_pos trivial]
    rw [if_neg (by omega : ¬ b % 16 * 4 = 64)]
    have e1 : a / 4 * 4 + (a % 4 * 16 + b / 16) / 16 = a := by omega
    have e2 : (a % 4 * 16 + b / 16) % 16 * 16 + b % 16 * 4 / 4 = b := by omega
    rw [e1, e2]
  | case3 a =>
    intro h
    have ha : a < 256 := h a (by simp)
    simp only [btoaChunks, atobChunks]
    rw [if_pos trivial, if_pos trivial]
    have e1 : a / 4 * 4 + a % 4 * 16 / 16 = a := by omega
    rw [e1]
  | case4 =>
    intro _
    rfl

theorem int16ToBytes_bounds (v : ℤ) : ∀ x ∈ int16ToBytes v, x < 256 := by
  intro x hx
  have hnn : 0 ≤ v % 65536 := Int.emod_nonneg v (by norm_num)
  have hlt : v % 65536 < 65536 := Int.emod_lt_of_pos v (by norm_num)
  simp only [int16ToBytes, List.mem_cons, List.mem_singleton, List.not_mem_nil,
    or_false] at hx
  rcases hx with h | h <;> omega

theorem bytesToInt16_int16ToBytes (v : ℤ) (h1 : -32768 ≤ v) (h2 : v ≤ 32767) :
    bytesToInt16 ((v % 65536).toNat % 256) ((v % 65536).toNat / 256) = v := by
  unfold bytesToInt16 toInt16
  have hnn : 0 ≤ v % 65536 := Int.emod_nonneg v (by norm_num)
  have hlt : v % 65536 < 65536 := Int.emod_lt_of_pos v (by norm_num)
  omega

theorem bytesToSamples_flatMap : ∀ vs : List ℤ,
    (∀ v ∈ vs, -32768 ≤ v ∧ v ≤ 32767) →
    bytesToSamples (vs.flatMap int16ToBytes)
      = vs.map (fun v : ℤ => ((v : ℚ) / 32768)) := by
  intro vs
  induction vs with
  | nil => intro _; rfl
  | cons v vs ih =>
    intro h
    have hv := h v (by simp)
    have hrest : ∀ x ∈ vs, -32768 ≤ x ∧ x ≤ 32767 := fun x hx => h x (by simp [hx])
    simp only [List.flatMap_cons, int16ToBytes, List.cons_append, List.nil_append,
      List.map_cons]
    rw [bytesToSamples]
    rw [ih hrest, bytesToInt16_int16ToBytes v hv.1 hv.2]

theorem zip_map_self {α β : Type} (f : α → β) (l : List α) :
    l.zip (l.map f) = l.map (fun a => (a, f a)) := by
  induction l with
  | nil => rfl
  | cons a l ih => simp [ih]

/-- C8 counterexample: the sample array `[1.0]` — every element inside the
claimed domain `[-1, 1]` — encodes through `createPcmBlob` and decodes through
`decode`/`decodeAudioData` to `[-1.0]`: the decoded sample differs from the
original by 2, far beyond the claimed quantization error of `1/32768`, because
the encoder wraps `1 * 32768` to `-32768`. -/
theorem c8_counterexample :
    decodePcm (createPcmBlobData [1]) = [-1] ∧
    ¬ (|(1 : ℚ) - -1| ≤ 1 / 32768) := by
  have he : encodeSample 1 = -32768 := by
    simp only [encodeSample, jsTrunc, toInt16]
    norm_num
  constructor
  · unfold decodePcm createPcmBlobData
    rw [show ([(1 : ℚ)].map encodeSample) = [-32768] from by rw [List.map_cons, he]; rfl]
    rw [show (([(-32768 : ℤ)]).flatMap int16ToBytes) = [0, 128] from by decide]
    rw [show atobChunks (btoaChunks [0, 128]) = [0, 128] from by decide]
    rw [show bytesToSamples [0, 128] = [((bytesToInt16 0 128 : ℤ) : ℚ) / 32768] from rfl]
    rw [show bytesToInt16 0 128 = -32768 from by decide]
    norm_num
  · norm_num

/-- C8 (amended): for every sample array with each element in `[-1, 1)`, the
encode/decode round trip (`createPcmBlob`, then `decode` and `decodeAudioData` at
one channel) reproduces each sample to within the 16-bit quantization error
`1/32768`; each decoded sample is exactly `trunc(s * 32768) / 32768`. At `s = 1`,
which the claim's closed interval admits, the encoder wraps and the decoded
sample is `-1` (see the counterexample). -/
theorem c8_roundtrip_quantization (samples : List ℚ)
    (h : ∀ s ∈ samples, -1 ≤ s ∧ s < 1) :
    decodePcm (createPcmBlobData samples)
      = samples.map (fun s => (encodeSample s : ℚ) / 32768) ∧
    ∀ p ∈ samples.zip (decodePcm (createPcmBlobData samples)),
      |p.1 - p.2| ≤ 1 / 32768 := by
  have hbytes : ∀ x ∈ (samples.map encodeSample).flatMap int16ToBytes, x < 256 := by
    intro x hx
    rw [List.mem_flatMap] at hx
    obtain ⟨v, _, hxv⟩ := hx
    exact int16ToBytes_bounds v x hxv
  have hdec : decodePcm (createPcmBlobData samples)
      = samples.map (fun s => (encodeSample s : ℚ) / 32768) := by
    unfold decodePcm createPcmBlobData
    rw [atobChunks_btoaChunks _ hbytes]
    rw [bytesToSamples_flatMap _ ?_]
    · rw [List.map_map]
      rfl
    · intro v hv
      rw [List.mem_map] at hv
      obtain ⟨s, _, rfl⟩ := hv
      exact toInt16_range _
  refine ⟨hdec, ?_⟩
  rw [hdec, zip_map_self]
  intro p hp
  rw [List.mem_map] at hp
  obtain ⟨s, hs, rfl⟩ := hp
  obtain ⟨h1, h2⟩ := h s hs
  have herr : |s * 32768 - (encodeSample s : ℚ)| < 1 := by
    rw [encodeSample_in_range s h1 h2]
    exact jsTrunc_err _
  have hscale : |s - (encodeSample s : ℚ) / 32768|
      = |s * 32768 - (encodeSample s : ℚ)| / 32768 := by
    have heq : s - (encodeSample s : ℚ) / 32768
        = (s * 32768 - (encodeSample s : ℚ)) / 32768 := by ring
    rw [heq, abs_div]
    norm_num
  show |s - (encodeSample s : ℚ) / 32768| ≤ 1 / 32768
  rw [hscale]
  have h32 : (0 : ℚ) < 32768 := by norm_num
  rw [div_le_div_iff₀ h32 h32]
  nlinarith [abs_nonneg (s * 32768 - (encodeSample s : ℚ))]

/-- Witness for C8 (amended) at the concrete sample array `[0, -3/4]`. -/
theorem c8_roundtrip_quantization_witness :
    decodePcm (createPcmBlobData [0, -3 / 4])
      = [0, -3 / 4].map (fun s => (encodeSample s : ℚ) / 32768) ∧
    ∀ p ∈ ([0, -3 / 4] : List ℚ).zip (decodePcm (createPcmBlobData [0, -3 / 4])),
      |p.1 - p.2| ≤ 1 / 32768 :=
  c8_roundtrip_quantization [0, -3 / 4] (by norm_num)

end MWOS
